import Mathlib

/-!
Shallow embedding of the llm-spend event pipeline:
* `src/pricing.js` — price table, model-name normalization, cost computation;
* the JSONL parser (`loadAllEvents` / `parseJSONL`) — event extraction with
  request-id deduplication and timestamp sorting;
* the server aggregations — `filterByDate`, `computeOverview`,
  `computeTopSessions`, `computeEvents`.

JavaScript specifics are modelled explicitly:
* JS string comparison (`<`, `>`) is code-unit lexicographic order, modelled by
  `charListLt` / `strLt` over the strings' character lists;
* JS falsiness of a possibly-absent string (`undefined`, `null`, `""`) is
  modelled by `jsStr : Option String → Option String`, which maps `some ""` to
  `none`;
* `Array.prototype.sort` with a consistent comparator (the cost-descending
  sorts of the aggregations) is modelled as the stable merge sort ECMAScript
  guarantees.  The timestamp comparator of `loadAllEvents` never returns 0, so
  it is not consistent and ECMAScript leaves the relative order of
  equal-timestamp events implementation-defined; its call-site contract is
  captured by the relation `SortSpec` (some permutation of the input that is
  sorted under the comparator), and the executable `loadAllEvents` picks one
  permitted refinement of that contract;
* JS numbers are modelled as exact rationals (`ℚ`), token counts as `Nat`.
-/

/-! ### JS string primitives -/

/-- ASCII lower-casing of one character, as `String.prototype.toLowerCase`
acts on the ASCII range (model names are ASCII). -/
def charLower (c : Char) : Char :=
  if 65 ≤ c.toNat ∧ c.toNat ≤ 90 then Char.ofNat (c.toNat + 32) else c

/-- Model of `String.prototype.toLowerCase` on ASCII strings. -/
def jsToLower (s : String) : String :=
  ⟨s.data.map charLower⟩

/-- Lexicographic strict order on character lists: the JS `<` on strings. -/
def charListLt : List Char → List Char → Bool
  | _, [] => false
  | [], _ :: _ => true
  | a :: as, b :: bs => if a < b then true else if b < a then false else charListLt as bs

/-- JS string comparison `a < b`. -/
def strLt (a b : String) : Bool :=
  charListLt a.data b.data

/-- JS truthiness of a possibly-absent string: `undefined`/`null`/`""` are
falsy.  `jsStr o = some s` exactly when the JS value is a truthy string `s`. -/
def jsStr : Option String → Option String
  | none => none
  | some s => if s = "" then none else some s

/-- JS `a || b` on two possibly-absent strings (with a final `|| null`). -/
def jsOr (a b : Option String) : Option String :=
  match jsStr a with
  | some s => some s
  | none => jsStr b

/-- JS `s.startsWith(p)`. -/
def jsStartsWith (s p : String) : Bool :=
  p.data.isPrefixOf s.data

/-! ### Pricing resolver (`src/pricing.js`) -/

/-- One row of the `PRICING` table.  Rates are USD per 1,000,000 tokens;
`cache_write` / `cache_read` are `null`able in the source. -/
structure PricingEntry where
  pfx : String
  provider : String
  input : ℚ
  output : ℚ
  cache_write : Option ℚ
  cache_read : Option ℚ

/-- The ordered price table of `src/pricing.js` (most-specific prefix first). -/
def PRICING : List PricingEntry := [
  ⟨"claude-opus-4-6",   "anthropic", 5.00, 25.00, some 6.25, some 0.50⟩,
  ⟨"claude-sonnet-4-6", "anthropic", 3.00, 15.00, some 3.75, some 0.30⟩,
  ⟨"claude-haiku-4-6",  "anthropic", 1.00,  5.00, some 1.25, some 0.10⟩,
  ⟨"claude-opus-4-5",   "anthropic", 5.00, 25.00, some 6.25, some 0.50⟩,
  ⟨"claude-sonnet-4-5", "anthropic", 3.00, 15.00, some 3.75, some 0.30⟩,
  ⟨"claude-haiku-4-5",  "anthropic", 1.00,  5.00, some 1.25, some 0.10⟩,
  ⟨"claude-opus-4-1",   "anthropic", 15.00, 75.00, some 18.75, some 1.50⟩,
  ⟨"claude-opus-4",     "anthropic", 15.00, 75.00, some 18.75, some 1.50⟩,
  ⟨"claude-opus-3",     "anthropic", 15.00, 75.00, some 18.75, some 1.50⟩,
  ⟨"claude-sonnet-3-7", "anthropic", 3.00, 15.00, some 3.75, some 0.30⟩,
  ⟨"claude-sonnet-3-5", "anthropic", 3.00, 15.00, some 3.75, some 0.30⟩,
  ⟨"claude-sonnet-3",   "anthropic", 3.00, 15.00, some 3.75, some 0.30⟩,
  ⟨"claude-haiku-3-5",  "anthropic", 0.80,  4.00, some 1.00, some 0.08⟩,
  ⟨"claude-haiku-3",    "anthropic", 0.25,  1.25, some 0.30, some 0.03⟩,
  ⟨"gpt-4o-mini",       "openai", 0.15,  0.60, none, some 0.075⟩,
  ⟨"gpt-4o",            "openai", 2.50, 10.00, none, some 1.25⟩,
  ⟨"gpt-4-turbo",       "openai", 10.00, 30.00, none, none⟩,
  ⟨"gpt-4",             "openai", 30.00, 60.00, none, none⟩,
  ⟨"gpt-3.5-turbo",     "openai", 0.50,  1.50, none, none⟩,
  ⟨"o4-mini",           "openai", 1.10,  4.40, none, some 0.275⟩,
  ⟨"o3-mini",           "openai", 1.10,  4.40, none, some 0.55⟩,
  ⟨"o3",                "openai", 10.00, 40.00, none, some 2.50⟩,
  ⟨"o1-mini",           "openai", 3.00, 12.00, none, some 1.50⟩,
  ⟨"o1",                "openai", 15.00, 60.00, none, some 7.50⟩]

/-- Does the string end in `-dddddddd` (the regex pattern dash + 8 digits, anchored at the end)? -/
def dateCond8 (s : String) : Bool :=
  let r := s.data.reverse
  (r.take 8).all Char.isDigit && r[8]? == some '-'

/-- JS replace of the trailing date pattern: strip a trailing `-YYYYMMDD` suffix. -/
def stripDate8 (s : String) : String :=
  if dateCond8 s then ⟨(s.data.reverse.drop 9).reverse⟩ else s

/-- Does the string end in `-dddd-dd-dd` (dash, 4 digits, dash, 2 digits, dash, 2 digits, anchored at the end)? -/
def dateCond10 (s : String) : Bool :=
  let r := s.data.reverse
  (r.take 2).all Char.isDigit && r[2]? == some '-' &&
  ((r.drop 3).take 2).all Char.isDigit && r[5]? == some '-' &&
  ((r.drop 6).take 4).all Char.isDigit && r[10]? == some '-'

/-- JS replace of the trailing dashed date pattern: strip a trailing
`-YYYY-MM-DD` suffix. -/
def stripDate10 (s : String) : String :=
  if dateCond10 s then ⟨(s.data.reverse.drop 11).reverse⟩ else s

/-- The model-name normalization performed inside `lookupModel`: lower-case,
strip `-YYYYMMDD`, then strip `-YYYY-MM-DD`. -/
def normalizeModel (model : String) : String :=
  stripDate10 (stripDate8 (jsToLower model))

/-- `lookupModel` of `src/pricing.js`: normalize, then first prefix match in
the ordered price table (`Array.prototype.find`, `|| null`). -/
def lookupModel (model : String) : Option PricingEntry :=
  if model = "" then none
  else PRICING.find? fun p => jsStartsWith (normalizeModel model) p.pfx

/-- `computeCostUSD` of `src/pricing.js`.  Null cache rates count as 0. -/
def computeCostUSD (model : String)
    (inputTokens outputTokens cacheCreationTokens cacheReadTokens : Nat) : ℚ :=
  match lookupModel model with
  | none => 0
  | some entry =>
      (inputTokens : ℚ) / 1000000 * entry.input +
      (outputTokens : ℚ) / 1000000 * entry.output +
      (cacheCreationTokens : ℚ) / 1000000 * entry.cache_write.getD 0 +
      (cacheReadTokens : ℚ) / 1000000 * entry.cache_read.getD 0

/-- `inferProvider` of `src/pricing.js`. -/
def inferProvider (model : String) : String :=
  if model = "" then "unknown"
  else match lookupModel model with
  | some entry => entry.provider
  | none =>
      if jsStartsWith model "gpt-" || jsStartsWith model "o1" ||
         jsStartsWith model "o3" || jsStartsWith model "o4" then "openai"
      else if jsStartsWith model "claude" then "anthropic"
      else "unknown"

/-! ### Usage events and the JSONL parser (`src/parser.js`) -/

/-- One normalized usage event, as pushed by `parseJSONL`. -/
structure UsageEvent where
  provider : String
  model : String
  session_id : Option String
  project_path : Option String
  request_id : String
  occurred_at : String
  input_tokens : Nat
  output_tokens : Nat
  cache_creation_tokens : Nat
  cache_read_tokens : Nat
  cost_usd : ℚ
  source : String
  prompt_text : Option String

/-- The `usage` object of an assistant record (fields may be absent). -/
structure Usage where
  input_tokens : Option Nat
  output_tokens : Option Nat
  cache_creation_input_tokens : Option Nat
  cache_read_input_tokens : Option Nat
deriving DecidableEq

/-- One item of a structured `content` array (array entries may be `null`,
hence the `Option` in `MsgContent.items`). -/
structure ContentItem where
  type : String
  text : Option String
deriving DecidableEq

/-- The `content` of a user message: a plain string, a structured array, or
anything else (absent is `Option.none` one level up). -/
inductive MsgContent where
  | str (s : String)
  | items (l : List (Option ContentItem))
  | other
deriving DecidableEq

/-- The nested `message` object of a log record. -/
structure Message where
  id : Option String
  model : Option String
  usage : Option Usage
  content : Option MsgContent
deriving DecidableEq

/-- One parsed JSONL record. -/
structure LogRecord where
  type : String
  message : Option Message
  sessionId : Option String
  cwd : Option String
  timestamp : Option String
  isSidechain : Bool
deriving DecidableEq

/-- `extractHumanText` of `src/parser.js`: pull the human-authored text out of
a `content` value, trimmed and truncated to 400 characters; tool-result items
are not `type: 'text'` and are skipped. -/
def extractHumanText : Option MsgContent → Option String
  | none => none
  | some (.str s) =>
      let t := (s.trim).take 400
      if t = "" then none else some t
  | some (.items l) =>
      let parts := l.filterMap fun oi =>
        match oi with
        | some item =>
            match item.text with
            | some t => if item.type = "text" then some t.trim else none
            | none => none
        | none => none
      let joined := (String.intercalate " " parts).trim
      if joined = "" then none else some (joined.take 400)
  | some .other => none

/-- Build the `UsageEvent` pushed for an emitting assistant record. -/
def mkEvent (proj : Option String) (now : String) (lht : Option String)
    (obj : LogRecord) (usage : Usage) (requestId model : String) : UsageEvent :=
  let inputTokens := usage.input_tokens.getD 0
  let outputTokens := usage.output_tokens.getD 0
  let cacheCreationTokens := usage.cache_creation_input_tokens.getD 0
  let cacheReadTokens := usage.cache_read_input_tokens.getD 0
  { provider := inferProvider model
    model := model
    session_id := jsStr obj.sessionId
    project_path := jsOr proj obj.cwd
    request_id := requestId
    occurred_at := (jsStr obj.timestamp).getD now
    input_tokens := inputTokens
    output_tokens := outputTokens
    cache_creation_tokens := cacheCreationTokens
    cache_read_tokens := cacheReadTokens
    cost_usd := computeCostUSD model inputTokens outputTokens cacheCreationTokens cacheReadTokens
    source := if obj.isSidechain then "claude-code-subagent" else "claude-code"
    prompt_text := jsStr lht }

/-- Processing of one parsed record inside the `parseJSONL` loop.  The state is
`(lastHumanText, seen, events)`; `now` models `new Date().toISOString()`. -/
def lineStep (proj : Option String) (now : String) (lht : Option String)
    (seen : List String) (events : List UsageEvent) (obj : LogRecord) :
    Option String × List String × List UsageEvent :=
  if obj.type = "user" then
    let text := match obj.message with
      | some msg => extractHumanText msg.content
      | none => none
    (match text with | some t => some t | none => lht, seen, events)
  else if obj.type ≠ "assistant" then (lht, seen, events)
  else match obj.message with
  | none => (lht, seen, events)
  | some msg =>
    match msg.usage with
    | none => (lht, seen, events)
    | some usage =>
      match jsStr msg.id with
      | none => (lht, seen, events)
      | some requestId =>
        if requestId ∈ seen then (lht, seen, events)
        else
          let seen2 := requestId :: seen
          match jsStr msg.model with
          | none => (lht, seen2, events)
          | some model =>
            if model = "<synthetic>" then (lht, seen2, events)
            else (lht, seen2, events ++ [mkEvent proj now lht obj usage requestId model])

/-- The `parseJSONL` line loop over the parsed lines of one file.  A `none`
line is a blank or malformed line (skipped).  Returns the final
`(seen, events)`. -/
def parseLines (proj : Option String) (now : String) :
    List (Option LogRecord) → Option String → List String → List UsageEvent →
    List String × List UsageEvent
  | [], _, seen, events => (seen, events)
  | none :: rest, lht, seen, events => parseLines proj now rest lht seen events
  | some obj :: rest, lht, seen, events =>
      let st := lineStep proj now lht seen events obj
      parseLines proj now rest st.1 st.2.1 st.2.2

/-- One discovered log file: its resolved project path and its parsed lines. -/
structure LogFile where
  projectPath : Option String
  lines : List (Option LogRecord)

/-- `loadAllEvents` before sorting: every file is parsed with one shared dedup
set and one shared output collection, `lastHumanText` restarting per file. -/
def loadEventsRaw (now : String) (files : List LogFile) :
    List String × List UsageEvent :=
  files.foldl
    (fun st f => parseLines f.projectPath now f.lines none st.1 st.2) ([], [])

/-- The non-strict order underlying the final sort
`events.sort((a, b) => (a.occurred_at < b.occurred_at ? -1 : 1))`:
`occLe a b` holds when the comparator applied to `(b, a)` is not negative,
i.e. `¬ b.occurred_at < a.occurred_at`.  The comparator never returns 0, so
it is not a consistent comparison function and ECMAScript only determines the
result up to `SortSpec` below; the order of equal-timestamp elements is
implementation-defined. -/
def occLe (a b : UsageEvent) : Bool :=
  !strLt b.occurred_at a.occurred_at

/-- `loadAllEvents` of `src/parser.js` over the discovered files: parse all
files, then sort ascending by `occurred_at`.  Because the comparator is
inconsistent (see `occLe`), the sort result is only specified up to
`SortSpec`; this executable model refines the contract with one permitted
choice, a merge sort keeping the left element on ties.  No theorem relies on
this tie order except to show the contract is realizable. -/
def loadAllEvents (now : String) (files : List LogFile) : List UsageEvent :=
  (loadEventsRaw now files).2.mergeSort occLe

/-- The call-site contract of the final `events.sort(...)` in
`loadAllEvents`: the output is some permutation of the parsed events that is
sorted under the comparator (adjacent timestamps non-decreasing).  With the
inconsistent comparator of the source this is all ECMAScript determines: any
such permutation, regardless of the order of equal-timestamp elements, is a
permitted outcome. -/
def SortSpec (l sorted : List UsageEvent) : Prop :=
  List.Perm sorted l ∧
  sorted.Chain' (fun a b => strLt b.occurred_at a.occurred_at = false)

/-! ### Date-range filter and aggregations (`src/server.js`) -/

/-- `filterByDate(events, from, to)`: when both bounds are falsy the input is
returned unchanged; otherwise `from` is an inclusive lower bound on
`occurred_at` and `to`, expanded to `to + "T23:59:59"`, an inclusive upper
bound. -/
def filterByDate (events : List UsageEvent) (dFrom dTo : Option String) :
    List UsageEvent :=
  if (jsStr dFrom).isNone ∧ (jsStr dTo).isNone then events
  else
    events.filter fun e =>
      (match jsStr dFrom with
       | some fv => !strLt e.occurred_at fv
       | none => true) &&
      (match jsStr dTo with
       | some tv => !strLt (tv ++ "T23:59:59") e.occurred_at
       | none => true)

/-- The `totals` accumulator of `computeOverview`. -/
structure OverviewTotals where
  total_requests : Nat
  input_tokens : Nat
  output_tokens : Nat
  cache_creation_tokens : Nat
  cache_read_tokens : Nat
  cost_usd : ℚ

/-- The initial `totals` accumulator. -/
def zeroTotals : OverviewTotals :=
  ⟨0, 0, 0, 0, 0, 0⟩

/-- One `reduce` step of the `totals` accumulation in `computeOverview`. -/
def totalsStep (acc : OverviewTotals) (e : UsageEvent) : OverviewTotals :=
  { total_requests := acc.total_requests + 1
    input_tokens := acc.input_tokens + e.input_tokens
    output_tokens := acc.output_tokens + e.output_tokens
    cache_creation_tokens := acc.cache_creation_tokens + e.cache_creation_tokens
    cache_read_tokens := acc.cache_read_tokens + e.cache_read_tokens
    cost_usd := acc.cost_usd + e.cost_usd }

/-- One row of the per-model breakdown of `computeOverview`. -/
structure ModelRow where
  model : String
  provider : String
  requests : Nat
  input_tokens : Nat
  output_tokens : Nat
  cache_creation_tokens : Nat
  cache_read_tokens : Nat
  cost_usd : ℚ

/-- The zero-initialized row `modelMap.set(e.model, {...})` creates. -/
def initModelRow (e : UsageEvent) : ModelRow :=
  { model := e.model, provider := e.provider, requests := 0,
    input_tokens := 0, output_tokens := 0,
    cache_creation_tokens := 0, cache_read_tokens := 0, cost_usd := 0 }

/-- The increments applied to the row fetched from the model map. -/
def bumpModelRow (r : ModelRow) (e : UsageEvent) : ModelRow :=
  { r with
    requests := r.requests + 1
    input_tokens := r.input_tokens + e.input_tokens
    output_tokens := r.output_tokens + e.output_tokens
    cache_creation_tokens := r.cache_creation_tokens + e.cache_creation_tokens
    cache_read_tokens := r.cache_read_tokens + e.cache_read_tokens
    cost_usd := r.cost_usd + e.cost_usd }

/-- The insertion-ordered model map of `computeOverview` as an association
list: the first row with a matching key is updated, a fresh key is appended. -/
def modelUpsert (e : UsageEvent) : List ModelRow → List ModelRow
  | [] => [bumpModelRow (initModelRow e) e]
  | r :: rs =>
      if r.model = e.model then bumpModelRow r e :: rs else r :: modelUpsert e rs

/-- Merge decision of `.sort((a, b) => b.cost_usd - a.cost_usd)`: the left
element stays first when its cost is at least the right one's. -/
def modelRowLe (a b : ModelRow) : Bool :=
  decide (b.cost_usd ≤ a.cost_usd)

/-- The result shape of `computeOverview`. -/
structure Overview where
  totals : OverviewTotals
  byModel : List ModelRow

/-- `computeOverview` of `src/server.js`. -/
def computeOverview (events : List UsageEvent) (dFrom dTo : Option String) :
    Overview :=
  let filtered := filterByDate events dFrom dTo
  { totals := filtered.foldl totalsStep zeroTotals
    byModel :=
      (filtered.foldl (fun rows e => modelUpsert e rows) []).mergeSort modelRowLe }

/-- The per-session accumulator of `computeTopSessions` (models still a set,
in insertion order). -/
structure SessionAcc where
  session_id : Option String
  project_path : Option String
  requests : Nat
  input_tokens : Nat
  output_tokens : Nat
  cache_creation_tokens : Nat
  cache_read_tokens : Nat
  cost_usd : ℚ
  started_at : String
  ended_at : String
  models : List String

/-- The grouping key `e.session_id || 'unknown'` of an event. -/
def sessKeyE (e : UsageEvent) : String :=
  (jsStr e.session_id).getD "unknown"

/-- The grouping key under which an accumulator was stored (it was created
from an event with the same key). -/
def sessKeyA (s : SessionAcc) : String :=
  (jsStr s.session_id).getD "unknown"

/-- The fresh accumulator `map.set(key, {...})` creates. -/
def initSessionAcc (e : UsageEvent) : SessionAcc :=
  { session_id := e.session_id, project_path := e.project_path, requests := 0,
    input_tokens := 0, output_tokens := 0,
    cache_creation_tokens := 0, cache_read_tokens := 0, cost_usd := 0,
    started_at := e.occurred_at, ended_at := e.occurred_at, models := [] }

/-- JS `Set.prototype.add`: append if not yet present. -/
def addModelName (l : List String) (m : String) : List String :=
  if m ∈ l then l else l ++ [m]

/-- The increments applied to the accumulator fetched from the session map. -/
def bumpSessionAcc (s : SessionAcc) (e : UsageEvent) : SessionAcc :=
  { s with
    requests := s.requests + 1
    input_tokens := s.input_tokens + e.input_tokens
    output_tokens := s.output_tokens + e.output_tokens
    cache_creation_tokens := s.cache_creation_tokens + e.cache_creation_tokens
    cache_read_tokens := s.cache_read_tokens + e.cache_read_tokens
    cost_usd := s.cost_usd + e.cost_usd
    started_at := if strLt e.occurred_at s.started_at then e.occurred_at else s.started_at
    ended_at := if strLt s.ended_at e.occurred_at then e.occurred_at else s.ended_at
    models := addModelName s.models e.model }

/-- The insertion-ordered session map as an association list. -/
def sessionUpsert (e : UsageEvent) : List SessionAcc → List SessionAcc
  | [] => [bumpSessionAcc (initSessionAcc e) e]
  | s :: ss =>
      if sessKeyA s = sessKeyE e then bumpSessionAcc s e :: ss
      else s :: sessionUpsert e ss

/-- Merge decision of `.sort((a, b) => b.cost_usd - a.cost_usd)` on session
accumulators. -/
def sessLe (a b : SessionAcc) : Bool :=
  decide (b.cost_usd ≤ a.cost_usd)

/-- One returned session row (`models` serialized with `join(',')`). -/
structure SessionRow where
  session_id : Option String
  project_path : Option String
  requests : Nat
  input_tokens : Nat
  output_tokens : Nat
  cache_creation_tokens : Nat
  cache_read_tokens : Nat
  cost_usd : ℚ
  started_at : String
  ended_at : String
  models : String

/-- The final `{ ...s, models: [...s.models].join(',') }` map. -/
def finalizeSession (s : SessionAcc) : SessionRow :=
  { session_id := s.session_id, project_path := s.project_path,
    requests := s.requests, input_tokens := s.input_tokens,
    output_tokens := s.output_tokens,
    cache_creation_tokens := s.cache_creation_tokens,
    cache_read_tokens := s.cache_read_tokens, cost_usd := s.cost_usd,
    started_at := s.started_at, ended_at := s.ended_at,
    models := String.intercalate "," s.models }

/-- `computeTopSessions` of `src/server.js` (the source defaults `limit` to
20 when the caller omits it). -/
def computeTopSessions (events : List UsageEvent) (dFrom dTo : Option String)
    (limit : Nat) : List SessionRow :=
  let filtered := filterByDate events dFrom dTo
  ((((filtered.foldl (fun m e => sessionUpsert e m) []).mergeSort sessLe).take
      limit).map finalizeSession)

/-- The result shape of `computeEvents`. -/
structure EventPage where
  rows : List UsageEvent
  total : Nat
  page : Nat
  limit : Nat
  pages : Nat

/-- Merge decision of `.sort((a, b) => b.cost_usd - a.cost_usd)` on events. -/
def evCostDesc (a b : UsageEvent) : Bool :=
  decide (b.cost_usd ≤ a.cost_usd)

/-- Merge decision of
`.sort((a, b) => b.occurred_at.localeCompare(a.occurred_at))` (newest first):
the left element stays first when its `occurred_at` is not below the right
one's. -/
def evOccDesc (a b : UsageEvent) : Bool :=
  !strLt a.occurred_at b.occurred_at

/-- `computeEvents` of `src/server.js`: sequential filters, sort by cost or
recency, then one 1-indexed page (the source defaults `page` to 1 and `limit`
to 50 when the caller omits them).  `Math.ceil(total / limit)` is the rational
ceiling. -/
def computeEvents (events : List UsageEvent) (page limit : Nat)
    (model provider session_id dFrom dTo sort : Option String) : EventPage :=
  let f1 : List UsageEvent := match jsStr dFrom with
    | some fv => events.filter fun e => !strLt e.occurred_at fv
    | none => events
  let f2 : List UsageEvent := match jsStr dTo with
    | some tv => f1.filter fun e => !strLt (tv ++ "T23:59:59") e.occurred_at
    | none => f1
  let f3 : List UsageEvent := match jsStr model with
    | some mv => f2.filter fun e => e.model == mv
    | none => f2
  let f4 : List UsageEvent := match jsStr provider with
    | some pv => f3.filter fun e => e.provider == pv
    | none => f3
  let f5 : List UsageEvent := match jsStr session_id with
    | some sv => f4.filter fun e => e.session_id == some sv
    | none => f4
  let sorted :=
    if sort = some "cost" then f5.mergeSort evCostDesc
    else f5.mergeSort evOccDesc
  let total := sorted.length
  let offset := (page - 1) * limit
  { rows := (sorted.drop offset).take limit, total := total, page := page,
    limit := limit, pages := ⌈(total : ℚ) / (limit : ℚ)⌉₊ }

/-! ### Lemmas about the normalization -/

theorem charLower_idem (c : Char) : charLower (charLower c) = charLower c := by
  unfold charLower
  by_cases h : 65 ≤ c.toNat ∧ c.toNat ≤ 90
  · rw [if_pos h]
    have hv : (Char.ofNat (c.toNat + 32)).toNat = c.toNat + 32 := by
      rw [Char.ofNat, dif_pos (Or.inl (by omega : c.toNat + 32 < 0xd800))]
      rfl
    rw [if_neg]
    rw [hv]
    omega
  · rw [if_neg h, if_neg h]

theorem jsToLower_lowered (s : String) :
    ∀ c ∈ (jsToLower s).data, charLower c = c := by
  intro c hc
  simp only [jsToLower, List.mem_map] at hc
  obtain ⟨a, _, rfl⟩ := hc
  exact charLower_idem a

theorem jsToLower_eq_self {s : String} (h : ∀ c ∈ s.data, charLower c = c) :
    jsToLower s = s := by
  cases s with
  | mk data =>
      show String.mk (data.map charLower) = String.mk data
      congr 1
      calc data.map charLower = data.map id := List.map_congr_left h
      _ = data := List.map_id data

theorem stripDate8_lowered {s : String} (h : ∀ c ∈ s.data, charLower c = c) :
    ∀ c ∈ (stripDate8 s).data, charLower c = c := by
  unfold stripDate8
  split
  · intro c hc
    apply h
    simp only [List.mem_reverse] at hc
    exact List.mem_reverse.mp (List.mem_of_mem_drop hc)
  · exact h

theorem stripDate10_lowered {s : String} (h : ∀ c ∈ s.data, charLower c = c) :
    ∀ c ∈ (stripDate10 s).data, charLower c = c := by
  unfold stripDate10
  split
  · intro c hc
    apply h
    simp only [List.mem_reverse] at hc
    exact List.mem_reverse.mp (List.mem_of_mem_drop hc)
  · exact h

theorem normalizeModel_lowered (s : String) :
    ∀ c ∈ (normalizeModel s).data, charLower c = c :=
  stripDate10_lowered (stripDate8_lowered (jsToLower_lowered s))

theorem stripDate8_of_cond_false {s : String} (h : dateCond8 s = false) :
    stripDate8 s = s := by
  unfold stripDate8
  simp [h]

theorem stripDate10_of_cond_false {s : String} (h : dateCond10 s = false) :
    stripDate10 s = s := by
  unfold stripDate10
  simp [h]

/-! ### Lemmas about the price table -/

theorem pricing_rates_nonneg :
    ∀ p ∈ PRICING, 0 ≤ p.input ∧ 0 ≤ p.output ∧
      0 ≤ p.cache_write.getD 0 ∧ 0 ≤ p.cache_read.getD 0 := by
  intro p hp
  fin_cases hp <;> refine ⟨by norm_num, by norm_num, by norm_num, by norm_num⟩

theorem lookupModel_mem {m : String} {e : PricingEntry}
    (h : lookupModel m = some e) : e ∈ PRICING := by
  unfold lookupModel at h
  split at h
  · exact absurd h (by simp)
  · exact List.mem_of_find?_eq_some h

/-! ### Claims C2, C3, C8 -/

/-- Claim C2: `computeCostUSD` on model `"claude-opus-4-6-20250601"` with
1,000,000 input tokens, 1,000,000 output tokens and zero cache tokens returns
exactly 30.00 USD (5.00 input + 25.00 output): date-suffix normalization maps
the string to the table prefix `"claude-opus-4-6"` and the cost is the sum of
tokens/1,000,000 times each rate. -/
theorem c2_cost_opus46_is_30 :
    computeCostUSD "claude-opus-4-6-20250601" 1000000 1000000 0 0 = 30 := by
  have h : lookupModel "claude-opus-4-6-20250601" =
      some ⟨"claude-opus-4-6", "anthropic", 5.00, 25.00, some 6.25, some 0.50⟩ := rfl
  unfold computeCostUSD
  rw [h]
  norm_num

/-- Claim C3 counterexample: the normalization of `lookupModel` is NOT
idempotent on every input.  For `"m-20240101-20240101"` the first pass strips
only the outer `-20240101` (one regex replacement each), leaving
`"m-20240101"`, and a second pass strips again, yielding `"m"`. -/
theorem c3_counterexample_normalize_not_idem :
    normalizeModel (normalizeModel "m-20240101-20240101") ≠
      normalizeModel "m-20240101-20240101" := by
  decide

/-- Claim C3 (amended): the normalization is idempotent on every input whose
once-normalized form does not itself still end in a date suffix of either
form; for such stacked-suffix inputs a second application strips again. -/
theorem c3_normalize_idem_unless_stacked_suffix :
    ∀ s : String, dateCond8 (normalizeModel s) = false →
      dateCond10 (normalizeModel s) = false →
      normalizeModel (normalizeModel s) = normalizeModel s := by
  intro s h8 h10
  have hlow : jsToLower (normalizeModel s) = normalizeModel s :=
    jsToLower_eq_self (normalizeModel_lowered s)
  show stripDate10 (stripDate8 (jsToLower (normalizeModel s))) = normalizeModel s
  rw [hlow, stripDate8_of_cond_false h8, stripDate10_of_cond_false h10]

/-- Witness for the amended C3 at the concrete model string
`"claude-opus-4-6-20250601"`. -/
theorem c3_normalize_idem_witness :
    dateCond8 (normalizeModel "claude-opus-4-6-20250601") = false ∧
    dateCond10 (normalizeModel "claude-opus-4-6-20250601") = false ∧
    normalizeModel (normalizeModel "claude-opus-4-6-20250601") =
      normalizeModel "claude-opus-4-6-20250601" :=
  ⟨by decide, by decide,
    c3_normalize_idem_unless_stacked_suffix "claude-opus-4-6-20250601"
      (by decide) (by decide)⟩

/-- Claim C8: `computeCostUSD` is total (a function in the model) and safe:
for every model string and token counts the result is non-negative; when no
price-table entry matches it is 0; and for a matched entry whose cache rates
are null the cache token counts contribute 0. -/
theorem c8_computeCostUSD_safe :
    ∀ (model : String) (i o cw cr : Nat),
      0 ≤ computeCostUSD model i o cw cr ∧
      (lookupModel model = none → computeCostUSD model i o cw cr = 0) ∧
      (∀ e, lookupModel model = some e → e.cache_write = none →
        e.cache_read = none →
        computeCostUSD model i o cw cr =
          (i : ℚ) / 1000000 * e.input + (o : ℚ) / 1000000 * e.output) := by
  intro model i o cw cr
  refine ⟨?_, ?_, ?_⟩
  · unfold computeCostUSD
    cases h : lookupModel model with
    | none => simp
    | some e =>
        obtain ⟨h1, h2, h3, h4⟩ := pricing_rates_nonneg e (lookupModel_mem h)
        have n1 : (0:ℚ) ≤ (i : ℚ) / 1000000 := by positivity
        have n2 : (0:ℚ) ≤ (o : ℚ) / 1000000 := by positivity
        have n3 : (0:ℚ) ≤ (cw : ℚ) / 1000000 := by positivity
        have n4 : (0:ℚ) ≤ (cr : ℚ) / 1000000 := by positivity
        exact add_nonneg (add_nonneg (add_nonneg (mul_nonneg n1 h1)
          (mul_nonneg n2 h2)) (mul_nonneg n3 h3)) (mul_nonneg n4 h4)
  · intro hn
    unfold computeCostUSD
    rw [hn]
  · intro e he hw hr
    unfold computeCostUSD
    rw [he]
    simp [hw, hr]

/-- Witness for C8 at the unknown model `"unknown-model-x"`. -/
theorem c8_witness :
    0 ≤ computeCostUSD "unknown-model-x" 123 456 7 8 ∧
    computeCostUSD "unknown-model-x" 123 456 7 8 = 0 :=
  ⟨(c8_computeCostUSD_safe "unknown-model-x" 123 456 7 8).1,
   (c8_computeCostUSD_safe "unknown-model-x" 123 456 7 8).2.1 rfl⟩

/-! ### Lemmas about the JS string order -/

theorem charListLt_self (l : List Char) : charListLt l l = false := by
  induction l with
  | nil => rfl
  | cons c cs ih => simp [charListLt, lt_irrefl, ih]

theorem strLt_self (s : String) : strLt s s = false :=
  charListLt_self s.data

theorem charListLt_append (p x y : List Char) :
    charListLt (p ++ x) (p ++ y) = charListLt x y := by
  induction p with
  | nil => rfl
  | cons c cs ih => simp [charListLt, lt_irrefl, ih]

/-! ### Claim C5 -/

/-- A sample event carrying only a request id and a timestamp (all other
fields defaulted), used to instantiate universally quantified theorems. -/
def sampleEvent (rid occ : String) : UsageEvent :=
  { provider := "anthropic", model := "m", session_id := none,
    project_path := none, request_id := rid, occurred_at := occ,
    input_tokens := 0, output_tokens := 0, cache_creation_tokens := 0,
    cache_read_tokens := 0, cost_usd := 0, source := "claude-code",
    prompt_text := none }

/-- Claim C5: `filterByDate` returns its input unchanged when both bounds are
absent, and is inclusive at both ends: with `from` given, an event whose
`occurred_at` equals `from` is kept; with `to` given, an event whose
`occurred_at` is `to` followed by `"T"` and a clock string not above
`"23:59:59"` (i.e. anywhere within `to`'s day up to the expanded end-of-day
bound) is kept. -/
theorem c5_filterByDate_inclusive_bounds :
    (∀ events, filterByDate events none none = events) ∧
    (∀ events (fv : String) e, e ∈ events → e.occurred_at = fv →
      e ∈ filterByDate events (some fv) none) ∧
    (∀ events (tv t : String) e, e ∈ events →
      e.occurred_at = tv ++ "T" ++ t → strLt "23:59:59" t = false →
      e ∈ filterByDate events none (some tv)) := by
  refine ⟨fun events => rfl, ?_, ?_⟩
  · intro events fv e he hocc
    unfold filterByDate
    by_cases hfv : fv = ""
    · subst hfv
      simp [jsStr, he]
    · rw [if_neg (by simp [jsStr, hfv])]
      refine List.mem_filter.mpr ⟨he, ?_⟩
      simp only [jsStr, if_neg hfv]
      rw [hocc, strLt_self]
      rfl
  · intro events tv t e he hocc hlt
    unfold filterByDate
    by_cases htv : tv = ""
    · subst htv
      simp [jsStr, he]
    · rw [if_neg (by simp [jsStr, htv])]
      refine List.mem_filter.mpr ⟨he, ?_⟩
      simp only [jsStr, if_neg htv]
      have hcmp : strLt (tv ++ "T23:59:59") e.occurred_at = false := by
        rw [hocc]
        show charListLt (tv ++ "T23:59:59").data (tv ++ "T" ++ t).data = false
        rw [String.data_append, String.data_append, String.data_append]
        have h1 : tv.data ++ "T23:59:59".data =
            (tv.data ++ ['T']) ++ "23:59:59".data := by simp
        have h2 : tv.data ++ "T".data ++ t.data =
            (tv.data ++ ['T']) ++ t.data := by simp
        rw [h1, h2, charListLt_append]
        exact hlt
      rw [hcmp]
      rfl

/-- Witness for C5 at concrete events and bounds. -/
theorem c5_witness :
    (filterByDate [sampleEvent "r1" "2024-01-02"] none none =
      [sampleEvent "r1" "2024-01-02"]) ∧
    sampleEvent "r1" "2024-01-02" ∈
      filterByDate [sampleEvent "r1" "2024-01-02"] (some "2024-01-02") none ∧
    sampleEvent "r2" "2024-01-02T10:00:00" ∈
      filterByDate [sampleEvent "r2" "2024-01-02T10:00:00"] none
        (some "2024-01-02") :=
  ⟨c5_filterByDate_inclusive_bounds.1 [sampleEvent "r1" "2024-01-02"],
   c5_filterByDate_inclusive_bounds.2.1 [sampleEvent "r1" "2024-01-02"]
     "2024-01-02" (sampleEvent "r1" "2024-01-02")
     (List.mem_singleton.mpr rfl) rfl,
   c5_filterByDate_inclusive_bounds.2.2 [sampleEvent "r2" "2024-01-02T10:00:00"]
     "2024-01-02" "10:00:00" (sampleEvent "r2" "2024-01-02T10:00:00")
     (List.mem_singleton.mpr rfl) (by decide) (by decide)⟩

/-! ### Claim C6 -/

theorem natCeil_div_eq (t l : ℕ) (hl : 1 ≤ l) :
    ⌈(t : ℚ) / (l : ℚ)⌉₊ = (t + l - 1) / l := by
  have hl0 : (0 : ℚ) < l := by exact_mod_cast hl
  apply le_antisymm
  · rw [Nat.ceil_le, div_le_iff₀ hl0]
    have h1 : t ≤ (t + l - 1) / l * l := by
      have hdm := Nat.div_add_mod (t + l - 1) l
      have hmlt := Nat.mod_lt (t + l - 1) (show 0 < l by omega)
      have hc : (t + l - 1) / l * l = l * ((t + l - 1) / l) := Nat.mul_comm _ _
      omega
    calc ((t : ℚ)) ≤ (((t + l - 1) / l * l : ℕ) : ℚ) := by exact_mod_cast h1
    _ = (((t + l - 1) / l : ℕ) : ℚ) * l := by push_cast; ring
  · have hx := Nat.le_ceil ((t : ℚ) / l)
    rw [div_le_iff₀ hl0] at hx
    have h5 : t ≤ ⌈(t : ℚ) / (l : ℚ)⌉₊ * l := by exact_mod_cast hx
    rw [Nat.div_le_iff_le_mul_add_pred (show 0 < l by omega)]
    have hc : ⌈(t : ℚ) / (l : ℚ)⌉₊ * l = l * ⌈(t : ℚ) / (l : ℚ)⌉₊ :=
      Nat.mul_comm _ _
    omega

/-- Claim C6: for every event collection and paginated-events query with page
`p ≥ 1` and page size `limit ≥ 1`, the page satisfies
`rows.length = min limit (total - (p - 1) * limit)` (ℕ subtraction) and
`pages = ⌈total / limit⌉ = (total + limit - 1) / limit`, `total` being the
count of events passing the filters. -/
theorem c6_computeEvents_pagination :
    ∀ events page limit model provider session_id dFrom dTo sort,
      1 ≤ page → 1 ≤ limit →
      ((computeEvents events page limit model provider session_id dFrom dTo
          sort).rows.length =
        min limit
          ((computeEvents events page limit model provider session_id dFrom dTo
              sort).total - (page - 1) * limit)) ∧
      ((computeEvents events page limit model provider session_id dFrom dTo
          sort).pages =
        ((computeEvents events page limit model provider session_id dFrom dTo
            sort).total + limit - 1) / limit) := by
  intro events page limit model provider session_id dFrom dTo sort hp hl
  constructor
  · simp only [computeEvents]
    simp [List.length_take, List.length_drop]
  · simp only [computeEvents]
    exact natCeil_div_eq _ _ hl

/-- Witness for C6 at a concrete three-event collection, page 1, limit 2. -/
theorem c6_witness :
    ((computeEvents [sampleEvent "r1" "2024-01-03", sampleEvent "r2" "2024-01-02",
        sampleEvent "r3" "2024-01-01"] 1 2 none none none none none
        none).rows.length =
      min 2
        ((computeEvents [sampleEvent "r1" "2024-01-03", sampleEvent "r2" "2024-01-02",
            sampleEvent "r3" "2024-01-01"] 1 2 none none none none none
            none).total - (1 - 1) * 2)) ∧
    ((computeEvents [sampleEvent "r1" "2024-01-03", sampleEvent "r2" "2024-01-02",
        sampleEvent "r3" "2024-01-01"] 1 2 none none none none none
        none).pages =
      ((computeEvents [sampleEvent "r1" "2024-01-03", sampleEvent "r2" "2024-01-02",
          sampleEvent "r3" "2024-01-01"] 1 2 none none none none none
          none).total + 2 - 1) / 2) :=
  c6_computeEvents_pagination
    [sampleEvent "r1" "2024-01-03", sampleEvent "r2" "2024-01-02",
      sampleEvent "r3" "2024-01-01"] 1 2 none none none none none none
    (by decide) (by decide)

/-! ### Claim C7 -/

theorem foldl_totalsStep_cost (l : List UsageEvent) (acc : OverviewTotals) :
    (l.foldl totalsStep acc).cost_usd =
      acc.cost_usd + (l.map (fun e => e.cost_usd)).sum := by
  induction l generalizing acc with
  | nil => simp
  | cons e es ih =>
      simp only [List.foldl_cons, List.map_cons, List.sum_cons, ih, totalsStep]
      ring

theorem modelUpsert_cost_sum (e : UsageEvent) (rows : List ModelRow) :
    ((modelUpsert e rows).map (fun r => r.cost_usd)).sum =
      (rows.map (fun r => r.cost_usd)).sum + e.cost_usd := by
  induction rows with
  | nil => simp [modelUpsert, bumpModelRow, initModelRow]
  | cons r rs ih =>
      by_cases h : r.model = e.model
      · simp only [modelUpsert, if_pos h, List.map_cons, List.sum_cons,
          bumpModelRow]
        ring
      · simp only [modelUpsert, if_neg h, List.map_cons, List.sum_cons, ih]
        ring

theorem foldl_modelUpsert_cost_sum (l : List UsageEvent) (rows : List ModelRow) :
    ((l.foldl (fun rows e => modelUpsert e rows) rows).map
        (fun r => r.cost_usd)).sum =
      (rows.map (fun r => r.cost_usd)).sum +
        (l.map (fun e => e.cost_usd)).sum := by
  induction l generalizing rows with
  | nil => simp
  | cons e es ih =>
      simp only [List.foldl_cons, List.map_cons, List.sum_cons, ih,
        modelUpsert_cost_sum]
      ring

theorem modelRowLe_trans :
    ∀ a b c : ModelRow, modelRowLe a b → modelRowLe b c → modelRowLe a c := by
  intro a b c hab hbc
  simp only [modelRowLe, decide_eq_true_eq] at hab hbc ⊢
  exact le_trans hbc hab

theorem modelRowLe_total : ∀ a b : ModelRow, modelRowLe a b || modelRowLe b a := by
  intro a b
  simp only [modelRowLe, Bool.or_eq_true, decide_eq_true_eq]
  exact le_total b.cost_usd a.cost_usd

/-- Claim C7: for every event collection and optional date range, the overview
is internally consistent: the `byModel` costs sum to `totals.cost_usd`, and
`byModel` is sorted descending by cost. -/
theorem c7_overview_consistent :
    ∀ events dFrom dTo,
      (((computeOverview events dFrom dTo).byModel.map
          (fun r => r.cost_usd)).sum =
        (computeOverview events dFrom dTo).totals.cost_usd) ∧
      (computeOverview events dFrom dTo).byModel.Pairwise
        (fun a b => b.cost_usd ≤ a.cost_usd) := by
  intro events dFrom dTo
  constructor
  · simp only [computeOverview]
    rw [((List.mergeSort_perm _ modelRowLe).map (fun r => r.cost_usd)).sum_eq]
    rw [foldl_modelUpsert_cost_sum, foldl_totalsStep_cost]
    simp [zeroTotals]
  · simp only [computeOverview]
    have hs := List.sorted_mergeSort modelRowLe_trans modelRowLe_total
      ((filterByDate events dFrom dTo).foldl (fun rows e => modelUpsert e rows) [])
    exact hs.imp fun h => by
      simpa [modelRowLe, decide_eq_true_eq] using h

/-! ### Claim C9 -/

theorem sessLe_trans :
    ∀ a b c : SessionAcc, sessLe a b → sessLe b c → sessLe a c := by
  intro a b c hab hbc
  simp only [sessLe, decide_eq_true_eq] at hab hbc ⊢
  exact le_trans hbc hab

theorem sessLe_total : ∀ a b : SessionAcc, sessLe a b || sessLe b a := by
  intro a b
  simp only [sessLe, Bool.or_eq_true, decide_eq_true_eq]
  exact le_total b.cost_usd a.cost_usd

/-- An event with a session id and a cost, used in the C9 scenario. -/
def sessEvent (sid occ : String) (c : ℚ) : UsageEvent :=
  { provider := "anthropic", model := "m", session_id := some sid,
    project_path := none, request_id := sid, occurred_at := occ,
    input_tokens := 0, output_tokens := 0, cache_creation_tokens := 0,
    cache_read_tokens := 0, cost_usd := c, source := "claude-code",
    prompt_text := none }

/-- The accumulator `computeTopSessions` builds for a single-event session. -/
def accOf (sid occ : String) (c : ℚ) : SessionAcc :=
  { session_id := some sid, project_path := none, requests := 1,
    input_tokens := 0, output_tokens := 0, cache_creation_tokens := 0,
    cache_read_tokens := 0, cost_usd := c, started_at := occ, ended_at := occ,
    models := ["m"] }

/-- The three-session scenario collection of C9 (costs 30, 20, 10). -/
def scenarioEvents : List UsageEvent :=
  [sessEvent "s3" "T3" 30, sessEvent "s2" "T2" 20, sessEvent "s1" "T1" 10]

/-- Claim C9: `computeTopSessions` groups by session, returns at most `n`
rows sorted descending by cost; and with limit 1 over three sessions of cost
10, 20 and 30 only the cost-30 session is returned. -/
theorem c9_topSessions_sorted_limited :
    (∀ events dFrom dTo n,
      (computeTopSessions events dFrom dTo n).length ≤ n ∧
      (computeTopSessions events dFrom dTo n).Pairwise
        (fun a b => b.cost_usd ≤ a.cost_usd)) ∧
    computeTopSessions scenarioEvents none none 1 =
      [{ session_id := some "s3", project_path := none, requests := 1,
         input_tokens := 0, output_tokens := 0, cache_creation_tokens := 0,
         cache_read_tokens := 0, cost_usd := 30, started_at := "T3",
         ended_at := "T3", models := "m" }] := by
  constructor
  · intro events dFrom dTo n
    constructor
    · simp only [computeTopSessions, List.length_map, List.length_take]
      exact min_le_left _ _
    · simp only [computeTopSessions, List.pairwise_map]
      have hs := List.sorted_mergeSort sessLe_trans sessLe_total
        ((filterByDate events dFrom dTo).foldl (fun m e => sessionUpsert e m) [])
      have ht := hs.sublist (List.take_sublist n _)
      exact ht.imp fun h => by
        simpa [sessLe, finalizeSession, decide_eq_true_eq] using h
  · have hfold : (filterByDate scenarioEvents none none).foldl
        (fun m e => sessionUpsert e m) [] =
        [accOf "s3" "T3" 30, accOf "s2" "T2" 20, accOf "s1" "T1" 10] := by
      show scenarioEvents.foldl (fun m e => sessionUpsert e m) [] = _
      simp [scenarioEvents, sessEvent, sessionUpsert, sessKeyA, sessKeyE, jsStr,
        bumpSessionAcc, initSessionAcc, addModelName, accOf, strLt, charListLt]
    have hsorted : List.Pairwise (fun a b => sessLe a b)
        [accOf "s3" "T3" 30, accOf "s2" "T2" 20, accOf "s1" "T1" 10] := by
      norm_num [List.pairwise_cons, sessLe, accOf]
    simp only [computeTopSessions, hfold]
    rw [List.mergeSort_of_sorted hsorted]
    simp [finalizeSession, accOf, String.intercalate]
    rfl

/-! ### Claim C4 -/

theorem charListLt_iff_lex :
    ∀ x y : List Char, charListLt x y = true ↔ List.Lex (· < ·) x y := by
  intro x
  induction x with
  | nil =>
      intro y
      cases y with
      | nil =>
          exact ⟨fun h => (nomatch h), fun h => absurd h (List.Lex.not_nil_right _ _)⟩
      | cons b bs => exact ⟨fun _ => List.Lex.nil, fun _ => rfl⟩
  | cons a as ih =>
      intro y
      cases y with
      | nil =>
          exact ⟨fun h => (nomatch h), fun h => absurd h (List.Lex.not_nil_right _ _)⟩
      | cons b bs =>
          simp only [charListLt]
          by_cases hab : a < b
          · rw [if_pos hab]
            exact iff_of_true rfl (List.Lex.rel hab)
          · by_cases hba : b < a
            · rw [if_neg hab, if_pos hba]
              constructor
              · intro h; exact (nomatch h)
              · intro h
                cases h with
                | cons h1 => exact absurd hba (lt_irrefl a)
                | rel h1 => exact absurd h1 hab
            · have heq : a = b := le_antisymm (not_lt.mp hba) (not_lt.mp hab)
              subst heq
              rw [if_neg hab, if_neg hba]
              rw [ih bs]
              constructor
              · intro h; exact List.Lex.cons h
              · intro h
                cases h with
                | cons h1 => exact h1
                | rel h1 => exact absurd h1 hab

theorem strLt_iff_lex (a b : String) :
    strLt a b = true ↔ List.Lex (· < ·) a.data b.data :=
  charListLt_iff_lex a.data b.data

theorem strLt_eq_false_iff (a b : String) :
    strLt a b = false ↔ ¬ List.Lex (· < ·) a.data b.data := by
  rw [← strLt_iff_lex]
  simp

/-- The merge decision of the timestamp sort holds exactly when the left
event's timestamp is at most the right one's (in the lexicographic order on
character lists). -/
theorem occLe_iff (a b : UsageEvent) :
    occLe a b = true ↔ a.occurred_at.data ≤ b.occurred_at.data := by
  simp only [occLe, Bool.not_eq_true']
  rw [strLt_eq_false_iff]
  show (¬ b.occurred_at.data < a.occurred_at.data) ↔
    a.occurred_at.data ≤ b.occurred_at.data
  exact not_lt

theorem occLe_trans : ∀ a b c : UsageEvent, occLe a b → occLe b c → occLe a c := by
  intro a b c hab hbc
  rw [occLe_iff] at hab hbc ⊢
  exact le_trans hab hbc

theorem occLe_total : ∀ a b : UsageEvent, occLe a b || occLe b a := by
  intro a b
  simp only [Bool.or_eq_true, occLe_iff]
  exact le_total a.occurred_at.data b.occurred_at.data

/-- Claim C4 (amended): the collection produced by `loadAllEvents` is a
permutation of the parsed events, sorted ascending by `occurred_at` (adjacent
pairs non-decreasing under the JS string comparison) — i.e. the executable
model satisfies the sort contract `SortSpec`.  The original claim's further
assertion that the sort is stable for equal timestamps is not a property of
the program: see `c4_counterexample_stability_not_guaranteed`. -/
theorem c4_loadAllEvents_sorted_permutation :
    ∀ now files, SortSpec (loadEventsRaw now files).2 (loadAllEvents now files) := by
  intro now files
  constructor
  · exact List.mergeSort_perm (loadEventsRaw now files).2 occLe
  · have hs := List.sorted_mergeSort occLe_trans occLe_total
      (loadEventsRaw now files).2
    have hp : (loadAllEvents now files).Pairwise
        (fun a b => strLt b.occurred_at a.occurred_at = false) :=
      hs.imp fun h => by simpa [occLe, Bool.not_eq_true'] using h
    exact hp.chain'

/-- An assistant record with usage data, used to instantiate the parser
theorems. -/
def wRecord (rid ts : String) : LogRecord :=
  { type := "assistant",
    message := some
      { id := some rid, model := some "m",
        usage := some ⟨some 1, some 2, none, none⟩, content := none },
    sessionId := none, cwd := none, timestamp := some ts, isSidechain := false }

/-- A one-file log with two records sharing one timestamp. -/
def wFile : LogFile :=
  { projectPath := none,
    lines := [some (wRecord "r1" "2024-01-01T00:00:00Z"),
              some (wRecord "r2" "2024-01-01T00:00:00Z")] }

/-- The event `parseJSONL` emits for `wRecord rid "2024-01-01T00:00:00Z"`. -/
def wEv (rid : String) : UsageEvent :=
  mkEvent none "NOW" none (wRecord rid "2024-01-01T00:00:00Z")
    ⟨some 1, some 2, none, none⟩ rid "m"

/-- Claim C4 counterexample: stability for equal timestamps fails on the
code.  The comparator `(a, b) => (a.occurred_at < b.occurred_at ? -1 : 1)`
never returns 0, so it is not a consistent comparison function and
ECMAScript leaves the order of equal-timestamp elements
implementation-defined: for the concrete file `wFile`, whose two records
share one timestamp and parse (in order) to `wEv "r1"` and `wEv "r2"`, the
swapped output `[wEv "r2", wEv "r1"]` also satisfies the sort contract
`SortSpec`, and it does not preserve the pre-sort order of the pair. -/
theorem c4_counterexample_stability_not_guaranteed :
    SortSpec (loadEventsRaw "NOW" [wFile]).2 [wEv "r2", wEv "r1"] ∧
    ¬ List.Sublist [wEv "r1", wEv "r2"] [wEv "r2", wEv "r1"] := by
  constructor
  · constructor
    · have hraw : (loadEventsRaw "NOW" [wFile]).2 = [wEv "r1", wEv "r2"] := rfl
      rw [hraw]
      exact List.Perm.swap (wEv "r1") (wEv "r2") []
    · exact List.chain'_cons.mpr ⟨by decide, List.chain'_singleton _⟩
  · intro h
    have heq := h.eq_of_length rfl
    injection heq with h1 h2
    have h3 : ("r1" : String) = "r2" := congrArg UsageEvent.request_id h1
    exact absurd h3 (by decide)

/-! ### Claims C1 and C10: request-id deduplication -/

/-- Does this record "consume" request id `rid`: an assistant record carrying
usage data whose message id is (truthily) `rid`?  Such a record reaches the
dedup check of `parseJSONL` with `rid`. -/
def consumesB (obj : LogRecord) (rid : String) : Bool :=
  obj.type == "assistant" &&
  (match obj.message with
   | some msg => msg.usage.isSome && (jsStr msg.id == some rid)
   | none => false)

/-- Is the record's model field absent, falsy, or the synthetic placeholder
(so that no event is emitted even after the id is marked seen)? -/
def badModelB (obj : LogRecord) : Bool :=
  match obj.message with
  | some msg => (jsStr msg.model).isNone || (jsStr msg.model == some "<synthetic>")
  | none => true

theorem consumesB_iff (obj : LogRecord) (rid : String) :
    consumesB obj rid = true ↔
      obj.type = "assistant" ∧ ∃ msg, obj.message = some msg ∧
        msg.usage.isSome = true ∧ jsStr msg.id = some rid := by
  unfold consumesB
  cases h : obj.message with
  | none => simp [h]
  | some msg => simp [h]

theorem badModelB_iff (obj : LogRecord) :
    badModelB obj = true ↔
      ∀ msg, obj.message = some msg →
        jsStr msg.model = none ∨ jsStr msg.model = some "<synthetic>" := by
  unfold badModelB
  cases h : obj.message with
  | none => simp [h]
  | some msg => simp [h]

/-- Case analysis of one `parseJSONL` record step: either the state other
than `lastHumanText` is unchanged, or the record consumes a fresh request id
`rid`, pushing `rid` onto the seen set and emitting at most one event, whose
`request_id` is `rid`. -/
theorem lineStep_cases (proj : Option String) (now : String) (lht : Option String)
    (seen : List String) (events : List UsageEvent) (obj : LogRecord) :
    (∃ lht2, lineStep proj now lht seen events obj = (lht2, seen, events)) ∨
    (∃ rid, consumesB obj rid = true ∧ rid ∉ seen ∧
      (lineStep proj now lht seen events obj = (lht, rid :: seen, events) ∨
       ∃ ev : UsageEvent, ev.request_id = rid ∧
         lineStep proj now lht seen events obj =
           (lht, rid :: seen, events ++ [ev]))) := by
  unfold lineStep
  by_cases hu : obj.type = "user"
  · rw [if_pos hu]
    exact Or.inl ⟨_, rfl⟩
  · rw [if_neg hu]
    by_cases ha : obj.type ≠ "assistant"
    · rw [if_pos ha]
      exact Or.inl ⟨_, rfl⟩
    · rw [if_neg ha]
      push_neg at ha
      cases hmsg : obj.message with
      | none => exact Or.inl ⟨_, rfl⟩
      | some msg =>
          dsimp only
          cases husage : msg.usage with
          | none => exact Or.inl ⟨_, rfl⟩
          | some usage =>
              dsimp only
              cases hid : jsStr msg.id with
              | none => exact Or.inl ⟨_, rfl⟩
              | some requestId =>
                  dsimp only
                  by_cases hseen : requestId ∈ seen
                  · rw [if_pos hseen]
                    exact Or.inl ⟨_, rfl⟩
                  · rw [if_neg hseen]
                    refine Or.inr ⟨requestId, ?_, hseen, ?_⟩
                    · rw [consumesB_iff]
                      exact ⟨ha, msg, hmsg, by rw [husage]; rfl, hid⟩
                    · cases hmodel : jsStr msg.model with
                      | none => exact Or.inl rfl
                      | some model =>
                          dsimp only
                          by_cases hsyn : model = "<synthetic>"
                          · rw [if_pos hsyn]
                            exact Or.inl rfl
                          · rw [if_neg hsyn]
                            exact Or.inr ⟨_, rfl, rfl⟩

/-- A record that consumes a fresh `rid` but has a bad model marks `rid` seen
and emits nothing. -/
theorem lineStep_consume_bad (proj : Option String) (now : String)
    (lht : Option String) (seen : List String) (events : List UsageEvent)
    (obj : LogRecord) (rid : String)
    (hcon : consumesB obj rid = true) (hbad : badModelB obj = true)
    (hseen : rid ∉ seen) :
    lineStep proj now lht seen events obj = (lht, rid :: seen, events) := by
  obtain ⟨htype, msg, hmsg, husage, hid⟩ := (consumesB_iff obj rid).mp hcon
  have hbad2 := (badModelB_iff obj).mp hbad msg hmsg
  have h1 : ¬ obj.type = "user" := by rw [htype]; simp
  have h2 : ¬ obj.type ≠ "assistant" := by rw [htype]; simp
  cases husage2 : msg.usage with
  | none => rw [husage2] at husage; simp at husage
  | some usage =>
      unfold lineStep
      rw [if_neg h1, if_neg h2, hmsg]
      dsimp only
      rw [husage2]
      dsimp only
      rw [hid]
      dsimp only
      rw [if_neg hseen]
      rcases hbad2 with hm | hm
      · rw [hm]
      · rw [hm]
        simp

/-- Induction principle for the `parseJSONL` line loop: any property of the
`(seen, events)` state preserved by every record step holds at the end. -/
theorem parseLines_induct (proj : Option String) (now : String)
    (P : List String → List UsageEvent → Prop)
    (hstep : ∀ lht seen events obj, P seen events →
      P (lineStep proj now lht seen events obj).2.1
        (lineStep proj now lht seen events obj).2.2) :
    ∀ lines lht seen events, P seen events →
      P (parseLines proj now lines lht seen events).1
        (parseLines proj now lines lht seen events).2 := by
  intro lines
  induction lines with
  | nil => intro lht seen events h; exact h
  | cons line rest ih =>
      intro lht seen events h
      cases line with
      | none => exact ih lht seen events h
      | some obj =>
          simp only [parseLines]
          exact ih _ _ _ (hstep lht seen events obj h)

/-- Induction principle over the whole-run fold of `loadAllEvents`. -/
theorem foldFiles_induct (now : String)
    (P : List String → List UsageEvent → Prop)
    (hstep : ∀ (proj : Option String) lht seen events obj, P seen events →
      P (lineStep proj now lht seen events obj).2.1
        (lineStep proj now lht seen events obj).2.2) :
    ∀ (files : List LogFile) seen events, P seen events →
      P (files.foldl
          (fun st f => parseLines f.projectPath now f.lines none st.1 st.2)
          (seen, events)).1
        (files.foldl
          (fun st f => parseLines f.projectPath now f.lines none st.1 st.2)
          (seen, events)).2 := by
  intro files
  induction files with
  | nil => intro seen events h; exact h
  | cons f fs ih =>
      intro seen events h
      simp only [List.foldl_cons]
      have h2 := parseLines_induct f.projectPath now P (hstep f.projectPath)
        f.lines none seen events h
      have hpair : parseLines f.projectPath now f.lines none seen events =
          ((parseLines f.projectPath now f.lines none seen events).1,
           (parseLines f.projectPath now f.lines none seen events).2) := rfl
      rw [hpair]
      exact ih _ _ h2

/-- The dedup invariant: every emitted event's request id is in the seen set,
and no two emitted events share a request id. -/
def DedupInv (seen : List String) (events : List UsageEvent) : Prop :=
  (∀ e ∈ events, e.request_id ∈ seen) ∧
  events.Pairwise (fun a b => a.request_id ≠ b.request_id)

theorem lineStep_preserves_dedupInv (proj : Option String) (now : String) :
    ∀ (lht : Option String) seen events obj, DedupInv seen events →
      DedupInv (lineStep proj now lht seen events obj).2.1
        (lineStep proj now lht seen events obj).2.2 := by
  intro lht seen events obj h
  obtain ⟨h1, h2⟩ := h
  rcases lineStep_cases proj now lht seen events obj with
    ⟨lht2, heq⟩ | ⟨rid, hcon, hseen, heq | ⟨ev, hevid, heq⟩⟩
  · rw [heq]
    exact ⟨h1, h2⟩
  · rw [heq]
    exact ⟨fun e he => List.mem_cons_of_mem _ (h1 e he), h2⟩
  · rw [heq]
    constructor
    · intro e he
      rcases List.mem_append.mp he with he1 | he2
      · exact List.mem_cons_of_mem _ (h1 e he1)
      · rw [List.mem_singleton.mp he2, hevid]
        exact List.mem_cons_self _ _
    · rw [List.pairwise_append]
      refine ⟨h2, List.pairwise_singleton _ _, ?_⟩
      intro a ha b hb
      rw [List.mem_singleton.mp hb, hevid]
      intro hcontra
      exact hseen (hcontra ▸ h1 a ha)

/-- Once a request id is in the seen set, the rest of the run emits no event
with it: every event of the result with that id was already present. -/
theorem parseLines_seen_blocks (proj : Option String) (now : String)
    (rid : String) (events0 : List UsageEvent) :
    ∀ lines lht seen events, rid ∈ seen →
      (∀ e ∈ events, e ∈ events0 ∨ e.request_id ≠ rid) →
      rid ∈ (parseLines proj now lines lht seen events).1 ∧
      (∀ e ∈ (parseLines proj now lines lht seen events).2,
        e ∈ events0 ∨ e.request_id ≠ rid) := by
  intro lines lht seen events hseen hev
  have := parseLines_induct proj now
    (fun s ev => rid ∈ s ∧ ∀ e ∈ ev, e ∈ events0 ∨ e.request_id ≠ rid)
    ?_ lines lht seen events ⟨hseen, hev⟩
  · exact this
  · intro lht2 seen2 events2 obj ⟨hs, he⟩
    rcases lineStep_cases proj now lht2 seen2 events2 obj with
      ⟨lht3, heq⟩ | ⟨rid2, hcon, hseen2, heq | ⟨ev, hevid, heq⟩⟩
    · rw [heq]
      exact ⟨hs, he⟩
    · rw [heq]
      exact ⟨List.mem_cons_of_mem _ hs, he⟩
    · rw [heq]
      refine ⟨List.mem_cons_of_mem _ hs, ?_⟩
      intro e hee
      rcases List.mem_append.mp hee with he1 | he2
      · exact he e he1
      · right
        rw [List.mem_singleton.mp he2, hevid]
        intro hcontra
        exact hseen2 (hcontra ▸ hs)

/-- While no processed record consumes `rid`, the id stays unseen and no
event with it is emitted. -/
theorem parseLines_no_consume (proj : Option String) (now : String)
    (rid : String) :
    ∀ lines lht seen events,
      (∀ o ∈ lines, ∀ obj : LogRecord, o = some obj → consumesB obj rid = false) →
      rid ∉ seen → (∀ e ∈ events, e.request_id ≠ rid) →
      rid ∉ (parseLines proj now lines lht seen events).1 ∧
      (∀ e ∈ (parseLines proj now lines lht seen events).2,
        e.request_id ≠ rid) := by
  intro lines
  induction lines with
  | nil => intro lht seen events _ hs he; exact ⟨hs, he⟩
  | cons line rest ih =>
      intro lht seen events hlines hs he
      cases line with
      | none =>
          exact ih lht seen events
            (fun o ho obj hobj => hlines o (List.mem_cons_of_mem _ ho) obj hobj)
            hs he
      | some obj =>
          simp only [parseLines]
          have hobj : consumesB obj rid = false :=
            hlines (some obj) (List.mem_cons_self _ _) obj rfl
          rcases lineStep_cases proj now lht seen events obj with
            ⟨lht2, heq⟩ | ⟨rid2, hcon, hseen2, heq | ⟨ev, hevid, heq⟩⟩
          · rw [heq]
            exact ih _ _ _
              (fun o ho obj2 ho2 => hlines o (List.mem_cons_of_mem _ ho) obj2 ho2)
              hs he
          · have hne : rid2 ≠ rid := fun hcontra => by
              rw [hcontra] at hcon
              rw [hcon] at hobj
              exact Bool.true_eq_false.mp hobj
            rw [heq]
            exact ih _ _ _
              (fun o ho obj2 ho2 => hlines o (List.mem_cons_of_mem _ ho) obj2 ho2)
              (by
                intro hmem
                rcases List.mem_cons.mp hmem with h | h
                · exact hne h.symm
                · exact hs h)
              he
          · have hne : rid2 ≠ rid := fun hcontra => by
              rw [hcontra] at hcon
              rw [hcon] at hobj
              exact Bool.true_eq_false.mp hobj
            rw [heq]
            exact ih _ _ _
              (fun o ho obj2 ho2 => hlines o (List.mem_cons_of_mem _ ho) obj2 ho2)
              (by
                intro hmem
                rcases List.mem_cons.mp hmem with h | h
                · exact hne h.symm
                · exact hs h)
              (by
                intro e hee
                rcases List.mem_append.mp hee with h | h
                · exact he e h
                · rw [List.mem_singleton.mp h, hevid]
                  exact fun hc => hne hc)

/-- Splitting the line loop at an append: the `(seen, events)` state threads
through, with some intermediate `lastHumanText`. -/
theorem parseLines_append (proj : Option String) (now : String) :
    ∀ l1 l2 lht seen events, ∃ lht2,
      parseLines proj now (l1 ++ l2) lht seen events =
        parseLines proj now l2 lht2
          (parseLines proj now l1 lht seen events).1
          (parseLines proj now l1 lht seen events).2 := by
  intro l1
  induction l1 with
  | nil => intro l2 lht seen events; exact ⟨lht, rfl⟩
  | cons line rest ih =>
      intro l2 lht seen events
      cases line with
      | none => exact ih l2 lht seen events
      | some obj =>
          simp only [List.cons_append, parseLines]
          exact ih l2 _ _ _

/-- Claim C1: in every collection returned by `loadAllEvents` no two events
share a `request_id`; moreover once a request id has been seen, every later
record with it is discarded without emitting an event (every event of the
result with that id was already present before). -/
theorem c1_loadAllEvents_unique_request_ids :
    ∀ (now : String) (files : List LogFile),
      ((loadAllEvents now files).Pairwise
        fun a b => a.request_id ≠ b.request_id) ∧
      (∀ (proj : Option String) lines lht seen events (rid : String),
        rid ∈ seen →
        ∀ e ∈ (parseLines proj now lines lht seen events).2,
          e ∈ events ∨ e.request_id ≠ rid) := by
  intro now files
  constructor
  · have hinv := foldFiles_induct now DedupInv
      (fun proj lht seen events obj h =>
        lineStep_preserves_dedupInv proj now lht seen events obj h)
      files [] [] ⟨by simp, by simp⟩
    have hraw : ((loadEventsRaw now files).2).Pairwise
        (fun a b => a.request_id ≠ b.request_id) := hinv.2
    have hperm := List.mergeSort_perm (loadEventsRaw now files).2 occLe
    exact (hperm.pairwise_iff fun h => Ne.symm h).mpr hraw
  · intro proj lines lht seen events rid hseen e he
    exact (parseLines_seen_blocks proj now rid events lines lht seen events
      hseen (fun e2 he2 => Or.inl he2)).2 e he

/-- Witness for C1: the two-record file `wFile`, and a run whose seen set
already contains `"r1"` emitting only the `"r2"` event. -/
theorem c1_witness :
    ((loadAllEvents "NOW" [wFile]).Pairwise
      fun a b => a.request_id ≠ b.request_id) ∧
    (wEv "r2" ∈ ([] : List UsageEvent) ∨ (wEv "r2").request_id ≠ "r1") :=
  ⟨(c1_loadAllEvents_unique_request_ids "NOW" [wFile]).1,
   (c1_loadAllEvents_unique_request_ids "NOW" [wFile]).2 none wFile.lines none
     ["r1"] [] "r1" (List.mem_singleton.mpr rfl) (wEv "r2")
     (by
       have h : (parseLines none "NOW" wFile.lines none ["r1"] []).2 =
           [wEv "r2"] := rfl
       rw [h]
       exact List.mem_singleton.mpr rfl)⟩

/-- Claim C10: if the first record carrying usage data and request id `rid`
has an absent/falsy model or the synthetic placeholder, the id is consumed
without emitting an event, and no later record with `rid` (even one with a
valid model) can emit: the run emits no event with `request_id = rid`. -/
theorem c10_bad_model_consumes_request_id :
    ∀ (proj : Option String) (now : String) (pre post : List (Option LogRecord))
      (lht : Option String) (seen : List String) (events : List UsageEvent)
      (rid : String) (r : LogRecord),
      (∀ o ∈ pre, ∀ obj : LogRecord, o = some obj → consumesB obj rid = false) →
      consumesB r rid = true → badModelB r = true →
      rid ∉ seen → (∀ e ∈ events, e.request_id ≠ rid) →
      ∀ e ∈ (parseLines proj now (pre ++ some r :: post) lht seen events).2,
        e.request_id ≠ rid := by
  intro proj now pre post lht seen events rid r hpre hcon hbad hs he
  obtain ⟨lht2, happ⟩ := parseLines_append proj now pre (some r :: post)
    lht seen events
  rw [happ]
  obtain ⟨hs1, he1⟩ :=
    parseLines_no_consume proj now rid pre lht seen events hpre hs he
  simp only [parseLines]
  rw [lineStep_consume_bad proj now lht2 _ _ r rid hcon hbad hs1]
  intro e hee
  have hblock := (parseLines_seen_blocks proj now rid
      (parseLines proj now pre lht seen events).2 post lht2
      (rid :: (parseLines proj now pre lht seen events).1)
      (parseLines proj now pre lht seen events).2
      (List.mem_cons_self _ _) (fun e2 he2 => Or.inl he2)).2 e hee
  rcases hblock with h | h
  · exact he1 e h
  · exact h

/-- A record that is neither a user nor an assistant turn. -/
def oRecord : LogRecord :=
  { type := "summary", message := none, sessionId := none, cwd := none,
    timestamp := none, isSidechain := false }

/-- An assistant record with usage data and id `"r1"` whose model is the
synthetic placeholder. -/
def bRecord : LogRecord :=
  { type := "assistant",
    message := some
      { id := some "r1", model := some "<synthetic>",
        usage := some ⟨some 1, none, none, none⟩, content := none },
    sessionId := none, cwd := none, timestamp := some "2024-01-01T00:00:00Z",
    isSidechain := false }

/-- Witness for C10: a run whose first `"r1"` record is synthetic, followed
by a valid-model `"r1"` record (discarded) and a valid `"r9"` record (the
only emitted event). -/
theorem c10_witness : (wEv "r9").request_id ≠ "r1" :=
  c10_bad_model_consumes_request_id none "NOW" [some oRecord]
    [some (wRecord "r1" "2024-01-01T00:00:00Z"),
     some (wRecord "r9" "2024-01-01T00:00:00Z")] none [] [] "r1" bRecord
    (by
      intro o ho obj hobj
      rw [List.mem_singleton] at ho
      subst ho
      injection hobj with h
      subst h
      decide)
    (by decide) (by decide) (by simp) (by simp)
    (wEv "r9")
    (by
      have h : (parseLines none "NOW"
          ([some oRecord] ++ some bRecord ::
            [some (wRecord "r1" "2024-01-01T00:00:00Z"),
             some (wRecord "r9" "2024-01-01T00:00:00Z")]) none [] []).2 =
          [wEv "r9"] := rfl
      rw [h]
      exact List.mem_singleton.mpr rfl)
